import Mathlib

/-!
Verification development for the 0x-monorepo order-state-watcher core and the
NonceTrackerSubprovider.

The order-state-watcher implementation (`src/order_watcher/order_state_watcher.ts`)
is not present in the source tree; only its mocha test suite is.  The watcher
(dependency index, order registry, state evaluator, confirmation buffer,
dispatcher) is therefore modelled from the specification, with the test suite
pinning concrete behaviour where the two disagree.  The nonce tracker
(`packages/subproviders/src/subproviders/nonce_tracker.ts`) is present and is
embedded directly from its source.
-/

namespace OrderWatcher

/-- Modelled from the spec: immutable signed order terms (spec section 3); the
watcher implementation is missing from the sources, so the data model follows
the spec's words.  Addresses, token addresses and order ids are modelled as
naturals; amounts are naturals. -/
structure Order where
  id : Nat
  maker : Nat
  taker : Nat
  makerToken : Nat
  takerToken : Nat
  amount : Nat
  expiration : Nat
deriving DecidableEq

/-- Association-list lookup used by the registry, the confirmed-state map and
the dependency index. -/
def assocFind {κ α : Type} [DecidableEq κ] (k : κ) : List (κ × α) → Option α
  | [] => none
  | p :: rest => if p.1 = k then some p.2 else assocFind k rest

/-- Modelled from the spec: the dependency index maps a resource key
(ownerAddress, resourceId) to the list of dependent order ids (spec
sections 3 and 4.1). -/
abbrev DepIndex := List ((Nat × Nat) × List Nat)

/-- Modelled from the spec: `lookup(resourceKey) -> set of orderId`
(spec section 4.1); a key with no bucket has no dependent orders. -/
def lookupIdx (idx : DepIndex) (key : Nat × Nat) : List Nat :=
  (assocFind key idx).getD []

/-- Modelled from the spec: `addDependency(resourceKey, orderId)`
(spec section 4.1); adds the order id to the key's bucket, creating the
bucket when absent. -/
def addDependency : DepIndex → (Nat × Nat) → Nat → DepIndex
  | [], key, oid => [(key, [oid])]
  | e :: rest, key, oid =>
    if e.1 = key then (e.1, if oid ∈ e.2 then e.2 else oid :: e.2) :: rest
    else e :: addDependency rest key oid

/-- Modelled from the spec: `removeDependencies(orderId)` removes the order
from every key it was registered under, pruning buckets left empty
(spec sections 3 and 4.1). -/
def removeDependencies (idx : DepIndex) (oid : Nat) : DepIndex :=
  (idx.map (fun e => (e.1, e.2.filter (fun i => decide (i ≠ oid))))).filter
    (fun e => !e.2.isEmpty)

/-- True when some bucket of the index references the order id. -/
def indexMentions (idx : DepIndex) (oid : Nat) : Bool :=
  idx.any (fun e => decide (oid ∈ e.2))

/-- True when the index holds a bucket with an empty order-id set. -/
def hasEmptyBucket (idx : DepIndex) : Bool :=
  idx.any (fun e => e.2.isEmpty)

/-- The resource keys under which the index references the order id. -/
def keysMentioning (idx : DepIndex) (oid : Nat) : List (Nat × Nat) :=
  (idx.filter (fun e => decide (oid ∈ e.2))).map (fun e => e.1)

/-- Errors exposed by the core (spec section 7). -/
inductive WatcherError
  | DuplicateOrderError
  | AlreadySubscribedError
deriving DecidableEq

/-- Modelled from the spec: the order registry owns the watched orders and
delegates index maintenance to the dependency index (spec sections 2
and 4.2). -/
structure OrderRegistry where
  orders : List (Nat × Order)
  index : DepIndex
deriving DecidableEq

/-- Modelled from the spec: `addOrder(order)` fails with `DuplicateOrderError`
when the id is already registered; on success it stores the order and
registers its maker-resource key (owner plus maker resource, spec sections 3,
4.2) in the dependency index.  The registered key matches the test suite's
`_dependentOrderHashes[signedOrder.maker][signedOrder.makerTokenAddress]`. -/
def addOrder (reg : OrderRegistry) (o : Order) : Except WatcherError OrderRegistry :=
  match assocFind o.id reg.orders with
  | some _ => .error .DuplicateOrderError
  | none =>
    .ok { orders := (o.id, o) :: reg.orders
          index := addDependency reg.index (o.maker, o.makerToken) o.id }

/-- Modelled from the spec: `removeOrder(orderId)` removes the order and its
dependencies, and is a total no-op (never an error) when the order is unknown
(spec sections 4.2 and 6). -/
def removeOrder (reg : OrderRegistry) (oid : Nat) : OrderRegistry :=
  { orders := reg.orders.filter (fun e => decide (e.1 ≠ oid))
    index := removeDependencies reg.index oid }

/-- Registry well-formedness (the spec's dependency-index invariant, spec
section 3): no bucket is empty, and every referenced order id is
registered. -/
def registryWf (reg : OrderRegistry) : Prop :=
  (∀ e ∈ reg.index, e.2 ≠ []) ∧
  (∀ e ∈ reg.index, ∀ i ∈ e.2, (assocFind i reg.orders).isSome = true)

/-- Modelled from the spec: the order relevant state snapshot (spec
section 3): owner balance, owner allowance, cumulative filled amount,
cumulative cancelled amount and the derived remaining fillable amount. -/
structure OrderRelevantState where
  makerBalance : Nat
  makerAllowance : Nat
  filledAmount : Nat
  cancelledAmount : Nat
  remainingFillableAmount : Nat
deriving DecidableEq

/-- Invalidity reasons surfaced by the evaluator (spec section 4.3). -/
inductive InvalidReason
  | Expired
  | RemainingFillAmountZero
  | InsufficientMakerBalance
  | InsufficientMakerAllowance
deriving DecidableEq

/-- Modelled from the spec: the order state tagged union (spec section 3). -/
inductive OrderState
  | Valid : Nat → OrderRelevantState → OrderState
  | Invalid : Nat → InvalidReason → OrderState
deriving DecidableEq

/-- The order id carried by an order state. -/
def OrderState.ownId : OrderState → Nat
  | .Valid i _ => i
  | .Invalid i _ => i

/-- Modelled from the spec: the external resource state provider (spec
sections 2 and 6): point-in-time balance, allowance, filled-amount and
cancelled-amount queries. -/
structure ProviderState where
  balance : Nat → Nat → Nat
  allowance : Nat → Nat → Nat
  filled : Nat → Nat
  cancelled : Nat → Nat

/-- Modelled from the spec: the snapshot fetched for one order via the
provider; the remaining fillable amount is derived as order amount minus
filled minus cancelled (spec sections 3 and 4.3). -/
def getRelevantState (ps : ProviderState) (o : Order) : OrderRelevantState :=
  { makerBalance := ps.balance o.maker o.makerToken
    makerAllowance := ps.allowance o.maker o.makerToken
    filledAmount := ps.filled o.id
    cancelledAmount := ps.cancelled o.id
    remainingFillableAmount := o.amount - ps.filled o.id - ps.cancelled o.id }

/-- Modelled from the spec: the state evaluator (spec section 4.3).  Checks
run in the fixed priority order expiration, zero remaining fillable amount,
insufficient maker balance, insufficient maker allowance, and the first
matching violation is the one reported. -/
def evaluate (o : Order) (time : Nat) (rs : OrderRelevantState) : OrderState :=
  if o.expiration ≤ time then .Invalid o.id .Expired
  else if rs.remainingFillableAmount = 0 then .Invalid o.id .RemainingFillAmountZero
  else if rs.makerBalance < rs.remainingFillableAmount then
    .Invalid o.id .InsufficientMakerBalance
  else if rs.makerAllowance < rs.remainingFillableAmount then
    .Invalid o.id .InsufficientMakerAllowance
  else .Valid o.id rs

/-- Modelled from the spec: a pending change held by the confirmation buffer
(spec sections 3 and 4.4). -/
structure PendingChange where
  orderId : Nat
  observedAtBlock : Nat
  candidateState : OrderState
deriving DecidableEq

/-- Modelled from the spec: a ledger log event touching the resource key
(owner, token) (spec section 6). -/
structure LogEvent where
  owner : Nat
  token : Nat
deriving DecidableEq

/-- The resource key an event touches. -/
def LogEvent.key (e : LogEvent) : Nat × Nat := (e.owner, e.token)

/-- Modelled from the spec: the watcher state: registry, configured
confirmation depth, the single optional subscription (callback identifier),
the last confirmed state per order and the confirmation buffer
(spec sections 2, 3, 4.4 and 4.5). -/
structure Watcher where
  registry : OrderRegistry
  confirmationDepth : Nat
  subscription : Option Nat
  confirmedState : List (Nat × OrderState)
  pending : List PendingChange
deriving DecidableEq

/-- Modelled from the spec: `subscribe(callback)` fails with
`AlreadySubscribedError` as an explicit error result when a subscription is
already active, leaving the watcher untouched; otherwise it records the
callback (spec sections 4.5, 6 and 9). -/
def subscribe (w : Watcher) (cb : Nat) : Except WatcherError Unit × Watcher :=
  match w.subscription with
  | some _ => (.error .AlreadySubscribedError, w)
  | none => (.ok (), { w with subscription := some cb })

/-- Modelled from the spec: `unsubscribe()` deactivates the subscription and
discards outstanding pending changes (spec section 4.5). -/
def unsubscribe (w : Watcher) : Watcher :=
  { w with subscription := none, pending := [] }

/-- Modelled from the spec: the order ids affected by a block's events, via
dependency-index lookup on each event's resource key (spec section 2 data
flow). -/
def affectedIds (idx : DepIndex) (events : List LogEvent) : List Nat :=
  ((events.map (fun e => lookupIdx idx e.key)).flatten).dedup

/-- The buffer's entry for an order, when present. -/
def lookupPending (pend : List PendingChange) (oid : Nat) : Option PendingChange :=
  pend.find? (fun p => decide (p.orderId = oid))

/-- Modelled from the spec: create or replace the pending change for an order
(spec section 4.4). -/
def upsertPending (pend : List PendingChange) (p : PendingChange) : List PendingChange :=
  (pend.filter (fun q => decide (q.orderId ≠ p.orderId))) ++ [p]

/-- Modelled from the spec: re-evaluate one affected order and update the
confirmation buffer: an unknown id is skipped, a state identical to the last
confirmed one never enters the buffer, otherwise the order's pending change
is created or replaced, stamped with the current block number
(spec section 4.4). -/
def stepEval (w : Watcher) (ps : ProviderState) (time bn : Nat)
    (pend : List PendingChange) (oid : Nat) : List PendingChange :=
  match assocFind oid w.registry.orders with
  | none => pend
  | some o =>
    if assocFind oid w.confirmedState = some (evaluate o time (getRelevantState ps o)) then
      pend
    else upsertPending pend ⟨oid, bn, evaluate o time (getRelevantState ps o)⟩

/-- Pending changes promoted at block `bn`: those stable for at least the
configured depth, `depth ≤ bn - observedAtBlock` (spec section 4.4). -/
def promotedOf (depth bn : Nat) (pend : List PendingChange) : List PendingChange :=
  pend.filter (fun p => decide (depth ≤ bn - p.observedAtBlock))

/-- Pending changes kept in the buffer at block `bn`: those not yet stable
for the configured depth. -/
def remainingOf (depth bn : Nat) (pend : List PendingChange) : List PendingChange :=
  pend.filter (fun p => !decide (depth ≤ bn - p.observedAtBlock))

/-- The confirmation buffer contents after evaluating a block's affected
orders. -/
def pendAfter (w : Watcher) (ps : ProviderState) (time bn : Nat)
    (events : List LogEvent) : List PendingChange :=
  (affectedIds w.registry.index events).foldl (stepEval w ps time bn) w.pending

/-- Modelled from the spec: processing one block (spec sections 2, 4.4
and 4.5).  With no active subscription no blocks are consumed.  Otherwise the
block's events resolve affected orders through the dependency index, each is
re-evaluated against the provider and buffered, and every pending change
stable for the configured depth is promoted to confirmed and delivered.
Returns the new watcher state, the delivered states (the callback
invocations) and the evaluated order ids. -/
def processBlock (w : Watcher) (bn : Nat) (events : List LogEvent)
    (ps : ProviderState) (time : Nat) : Watcher × List OrderState × List Nat :=
  match w.subscription with
  | none => (w, [], [])
  | some _ =>
    let pend1 := pendAfter w ps time bn events
    ({ w with
        pending := remainingOf w.confirmationDepth bn pend1
        confirmedState :=
          (promotedOf w.confirmationDepth bn pend1).foldl
            (fun cs p => (p.orderId, p.candidateState) ::
              cs.filter (fun e => decide (e.1 ≠ p.orderId)))
            w.confirmedState },
     (promotedOf w.confirmationDepth bn pend1).map (fun p => p.candidateState),
     affectedIds w.registry.index events)

/-- Modelled from the spec: a reorg retracting block `retractedBlock`
discards, without delivery, every pending change observed at that block or
later (spec section 4.4). -/
def handleReorg (w : Watcher) (retractedBlock : Nat) : Watcher :=
  { w with pending := w.pending.filter (fun p => decide (p.observedAtBlock < retractedBlock)) }

/-! Concrete scenario data mirroring the test suite: a fillable order for 5
units (`fillableAmount = new BigNumber(5)`), maker funded and approved for
exactly 5 units of the maker token. -/

/-- The watched order of the test scenarios: maker 10, taker 11, maker token
20, taker token 21, amount 5, far-future expiration. -/
def scOrder : Order :=
  { id := 1, maker := 10, taker := 11, makerToken := 20, takerToken := 21
    amount := 5, expiration := 1000 }

/-- The empty registry. -/
def emptyRegistry : OrderRegistry := { orders := [], index := [] }

/-- The registry watching exactly `scOrder`; equals
`addOrder emptyRegistry scOrder`. -/
def scRegistry : OrderRegistry :=
  { orders := [(1, scOrder)], index := [((10, 20), [1])] }

/-- Provider state right after order creation: maker holds 5 units of the
maker token and has a 5-unit proxy allowance; nothing filled or cancelled. -/
def scPs0 : ProviderState :=
  { balance := fun a t => if a = 10 ∧ t = 20 then 5 else 0
    allowance := fun a t => if a = 10 ∧ t = 20 then 5 else 0
    filled := fun _ => 0
    cancelled := fun _ => 0 }

/-- Modelled from the spec and the test suite: the effect of a fill of `k`
units on the provider state.  The exchange fill logic is not under the
sources; the test suite pins that the maker balance decreases by the fill
amount (`orderRelevantState.makerBalance == makerBalance.sub(fillAmountInBaseUnits)`)
and that the filled amount increases, while the allowance field is kept
unchanged as the spec describes. -/
def applyFill (ps : ProviderState) (o : Order) (k : Nat) : ProviderState :=
  { ps with
      filled := fun i => if i = o.id then ps.filled i + k else ps.filled i
      balance := fun a t =>
        if a = o.maker ∧ t = o.makerToken then ps.balance a t - k else ps.balance a t }

/-- Provider state after a partial fill of 2 units of `scOrder`. -/
def scPs1 : ProviderState := applyFill scPs0 scOrder 2

/-- Provider state after the maker moved the whole balance backing the order
away (the balance-drop scenario); allowance, filled and cancelled amounts
unchanged. -/
def drainPs : ProviderState :=
  { balance := fun _ _ => 0
    allowance := fun a t => if a = 10 ∧ t = 20 then 5 else 0
    filled := fun _ => 0
    cancelled := fun _ => 0 }

/-- The ledger event touching the order's maker resource key (10, 20). -/
def scEvent : LogEvent := { owner := 10, token := 20 }

/-- A ledger event touching a resource key with no dependent orders. -/
def strayEvent : LogEvent := { owner := 99, token := 98 }

/-- Watcher over `scRegistry` with confirmation depth 0 and an active
subscription. -/
def scWatcher : Watcher :=
  { registry := scRegistry, confirmationDepth := 0, subscription := some 0
    confirmedState := [], pending := [] }

/-- Watcher over `scRegistry` with confirmation depth 1 and an active
subscription. -/
def depth1Watcher : Watcher :=
  { registry := scRegistry, confirmationDepth := 1, subscription := some 0
    confirmedState := [], pending := [] }

end OrderWatcher

namespace NonceTracker

/-- The error fragment matched by the tracker
(`NONCE_TOO_LOW_ERROR_MESSAGE` in `nonce_tracker.ts`). -/
def nonceTooLowMessage : String := "Transaction nonce is too low"

/-- The per-sender nonce cache (`_nonceCache`): sender address to cached hex
nonce string. -/
abbrev Cache := Nat → Option String

/-- Store a value for an address. -/
def updateEntry (cache : Cache) (a : Nat) (v : String) : Cache :=
  fun x => if x = a then some v else cache x

/-- Remove an address's entry (JavaScript `delete`). -/
def deleteEntry (cache : Cache) (a : Nat) : Cache :=
  fun x => if x = a then none else cache x

/-- JavaScript truthiness of an optional cached string: absent and empty
strings are falsy, every other string is truthy. -/
def truthy : Option String → Bool
  | none => false
  | some s => decide (s ≠ "")

/-- Whether `sub` occurs at the start of `l`. -/
def leadMatch : List Char → List Char → Bool
  | [], _ => true
  | _ :: _, [] => false
  | a :: as, b :: bs => a == b && leadMatch as bs

/-- Whether `sub` occurs somewhere inside `l`. -/
def hasSub (sub : List Char) : List Char → Bool
  | [] => sub.isEmpty
  | b :: bs => leadMatch sub (b :: bs) || hasSub sub bs

/-- Lodash `_.includes(msg, sub)` on strings: substring containment. -/
def strIncludes (msg sub : String) : Bool := hasSub sub.data msg.data

/-- The hex digits written by `_handleSuccessfulTransaction`: `toString(16)`
of the value, left-padded with a single `0` when the digit count is odd. -/
def evenHexChars (n : Nat) : List Char :=
  let d := Nat.toDigits 16 n
  if d.length % 2 = 1 then '0' :: d else d

/-- The cached string for a submitted nonce: the incremented nonce as a
`0x`-prefixed even-length hex string. -/
def nextPrefixedHexNonce (txNonce : Nat) : String :=
  "0x" ++ String.mk (evenHexChars (txNonce + 1))

/-- `_handleSuccessfulTransaction`: cache the submitted transaction's nonce
plus one for the sender. -/
def handleSuccessfulTransaction (cache : Cache) (sender txNonce : Nat) : Cache :=
  updateEntry cache sender (nextPrefixedHexNonce txNonce)

/-- `_handleSendTransactionError`: drop the sender's cached nonce when a
truthy cached value is present and the error message contains
`nonceTooLowMessage`; otherwise leave the cache alone. -/
def handleSendTransactionError (cache : Cache) (sender : Nat) (errMsg : String) : Cache :=
  if truthy (cache sender) && strIncludes errMsg nonceTooLowMessage then
    deleteEntry cache sender
  else cache

/-- The `eth_sendRawTransaction` arm of `handleRequest`: on a send without
error the success handler runs, otherwise the error handler runs.  The
transaction's sender address and nonce (recovered in the source by
`_determineAddress` / `_reconstructTransaction`) are taken as inputs. -/
def handleSendRawTransaction (cache : Cache) (sender txNonce : Nat)
    (sendError : Option String) : Cache :=
  match sendError with
  | none => handleSuccessfulTransaction cache sender txNonce
  | some msg => handleSendTransactionError cache sender msg

/-- Cache whose only entry is the empty string for address 0; reachable in
the source through the `eth_getTransactionCount` arm, which stores whatever
result the downstream provider returns. -/
def emptyValCache : Cache := fun a => if a = 0 then some "" else none

end NonceTracker

namespace OrderWatcher

theorem assocFind_eq_none_iff {κ α : Type} [DecidableEq κ] (k : κ) (l : List (κ × α)) :
    assocFind k l = none ↔ ∀ p ∈ l, p.1 ≠ k := by
  induction l with
  | nil => simp [assocFind]
  | cons p rest ih =>
    by_cases h : p.1 = k <;> simp [assocFind, h, ih]

theorem removeDependencies_no_oid (idx : DepIndex) (oid : Nat) :
    indexMentions (removeDependencies idx oid) oid = false := by
  rw [indexMentions, List.any_eq_false]
  intro e he
  obtain ⟨e0, _, rfl⟩ := List.mem_map.mp (List.mem_of_mem_filter he)
  simp [List.mem_filter]

theorem removeDependencies_no_empty (idx : DepIndex) (oid : Nat) :
    hasEmptyBucket (removeDependencies idx oid) = false := by
  rw [hasEmptyBucket, List.any_eq_false]
  intro e he
  have := List.of_mem_filter he
  simp_all

theorem removeDependencies_id (idx : DepIndex) (oid : Nat)
    (hno : ∀ e ∈ idx, oid ∉ e.2) (hne : ∀ e ∈ idx, e.2 ≠ []) :
    removeDependencies idx oid = idx := by
  induction idx with
  | nil => rfl
  | cons e rest ih =>
    have h1 : oid ∉ e.2 := hno e (by simp)
    have h2 : e.2 ≠ [] := hne e (by simp)
    have hfilter : e.2.filter (fun i => decide (i ≠ oid)) = e.2 :=
      List.filter_eq_self.mpr (fun a ha => by
        simp only [decide_eq_true_eq]
        exact fun heq => h1 (heq ▸ ha))
    have hrest : removeDependencies rest oid = rest :=
      ih (fun x hx => hno x (by simp [hx])) (fun x hx => hne x (by simp [hx]))
    simp only [removeDependencies, List.map_cons, hfilter, List.filter_cons] at *
    have hbool : (!e.2.isEmpty) = true := by
      simp [List.isEmpty_iff]
      exact h2
    rw [hbool]
    simp only [if_true]
    exact congrArg (e :: ·) hrest

/-- C4: for every order added via `addOrder` and then removed via
`removeOrder`, the dependency index afterwards references that order's id
under no resource key, and no bucket with an empty set remains (empty
buckets are pruned). -/
theorem addRemove_no_residue (reg : OrderRegistry) (o : Order) (reg' : OrderRegistry)
    (_ : addOrder reg o = .ok reg') :
    indexMentions (removeOrder reg' o.id).index o.id = false
    ∧ hasEmptyBucket (removeOrder reg' o.id).index = false :=
  ⟨removeDependencies_no_oid reg'.index o.id, removeDependencies_no_empty reg'.index o.id⟩

theorem addRemove_no_residue_witness :
    indexMentions (removeOrder scRegistry scOrder.id).index scOrder.id = false
    ∧ hasEmptyBucket (removeOrder scRegistry scOrder.id).index = false :=
  addRemove_no_residue emptyRegistry scOrder scRegistry rfl

/-- C8: removing an order id that is not registered never raises an error
(`removeOrder` is total) and leaves both the order registry and the
dependency index unchanged, assuming the spec's dependency-index invariant
(buckets are non-empty and reference only registered orders). -/
theorem removeOrder_unknown_noop (reg : OrderRegistry) (oid : Nat)
    (hwf : registryWf reg) (hmiss : assocFind oid reg.orders = none) :
    removeOrder reg oid = reg := by
  obtain ⟨hne, href⟩ := hwf
  have hkeys : ∀ p ∈ reg.orders, p.1 ≠ oid := (assocFind_eq_none_iff _ _).mp hmiss
  have hno : ∀ e ∈ reg.index, oid ∉ e.2 := by
    intro e he hmem
    have := href e he oid hmem
    rw [hmiss] at this
    simp at this
  have h1 : reg.orders.filter (fun e => decide (e.1 ≠ oid)) = reg.orders :=
    List.filter_eq_self.mpr (fun a ha => by
      simp only [decide_eq_true_eq]
      exact hkeys a ha)
  have h2 : removeDependencies reg.index oid = reg.index :=
    removeDependencies_id reg.index oid hno hne
  rw [removeOrder, h1, h2]

theorem removeOrder_unknown_noop_witness : removeOrder scRegistry 2 = scRegistry :=
  removeOrder_unknown_noop scRegistry 2 ⟨by decide, by decide⟩ (by decide)

/-- C5: calling `subscribe` while a subscription is active yields the
explicit error result `AlreadySubscribedError` (modelled as an `Except`
value, not an exception) and leaves the watcher, in particular the first
subscription, unchanged. -/
theorem subscribe_twice_fails (w : Watcher) (c cb : Nat) (h : w.subscription = some c) :
    (subscribe w cb).1 = .error .AlreadySubscribedError
    ∧ (subscribe w cb).2 = w
    ∧ (subscribe w cb).2.subscription = some c := by
  simp [subscribe, h]

theorem subscribe_twice_fails_witness :
    (subscribe scWatcher 7).1 = .error .AlreadySubscribedError
    ∧ (subscribe scWatcher 7).2 = scWatcher
    ∧ (subscribe scWatcher 7).2.subscription = some 0 :=
  subscribe_twice_fails scWatcher 0 7 (by decide)

/-- C1: the evaluator checks violations in the fixed priority order
expiration, zero remaining fillable amount, insufficient maker balance,
insufficient maker allowance, reporting only the first matching violation;
in particular, whenever the remaining fillable amount is 0 (and the
higher-priority expiration check does not fire), the result is
`Invalid` with reason `RemainingFillAmountZero` for every balance and
allowance value, including simultaneously insufficient ones. -/
theorem evaluate_firstMatch (o : Order) (time : Nat) (rs : OrderRelevantState) :
    (o.expiration ≤ time → evaluate o time rs = .Invalid o.id .Expired)
    ∧ (¬ o.expiration ≤ time → rs.remainingFillableAmount = 0 →
        evaluate o time rs = .Invalid o.id .RemainingFillAmountZero)
    ∧ (¬ o.expiration ≤ time → rs.remainingFillableAmount ≠ 0 →
        rs.makerBalance < rs.remainingFillableAmount →
        evaluate o time rs = .Invalid o.id .InsufficientMakerBalance)
    ∧ (¬ o.expiration ≤ time → rs.remainingFillableAmount ≠ 0 →
        ¬ rs.makerBalance < rs.remainingFillableAmount →
        rs.makerAllowance < rs.remainingFillableAmount →
        evaluate o time rs = .Invalid o.id .InsufficientMakerAllowance)
    ∧ (¬ o.expiration ≤ time → rs.remainingFillableAmount ≠ 0 →
        ¬ rs.makerBalance < rs.remainingFillableAmount →
        ¬ rs.makerAllowance < rs.remainingFillableAmount →
        evaluate o time rs = .Valid o.id rs) := by
  refine ⟨fun h1 => ?_, fun h1 h2 => ?_, fun h1 h2 h3 => ?_,
    fun h1 h2 h3 h4 => ?_, fun h1 h2 h3 h4 => ?_⟩
  · unfold evaluate
    rw [if_pos h1]
  · unfold evaluate
    rw [if_neg h1, if_pos h2]
  · unfold evaluate
    rw [if_neg h1, if_neg h2, if_pos h3]
  · unfold evaluate
    rw [if_neg h1, if_neg h2, if_neg h3, if_pos h4]
  · unfold evaluate
    rw [if_neg h1, if_neg h2, if_neg h3, if_neg h4]

theorem evaluate_firstMatch_witness :
    evaluate scOrder 0
      { makerBalance := 0, makerAllowance := 0, filledAmount := 5
        cancelledAmount := 0, remainingFillableAmount := 0 }
      = OrderState.Invalid 1 InvalidReason.RemainingFillAmountZero :=
  (evaluate_firstMatch scOrder 0 _).2.1 (by decide) (by decide)

theorem keysMentioning_addDependency (idx : DepIndex) (key : Nat × Nat) (oid : Nat)
    (hno : ∀ e ∈ idx, oid ∉ e.2) :
    keysMentioning (addDependency idx key oid) oid = [key] := by
  induction idx with
  | nil => simp [addDependency, keysMentioning]
  | cons e rest ih =>
    have h1 : oid ∉ e.2 := hno e (by simp)
    have hrest : ∀ x ∈ rest, oid ∉ x.2 := fun x hx => hno x (by simp [hx])
    by_cases hk : e.1 = key
    · have hrestnil : rest.filter (fun x => decide (oid ∈ x.2)) = [] :=
        List.filter_eq_nil_iff.mpr (fun x hx => by
          simp only [decide_eq_true_eq]
          exact hrest x hx)
      simp [addDependency, keysMentioning, hk, h1, List.filter_cons, hrestnil]
    · have := ih hrest
      simp only [addDependency, if_neg hk, keysMentioning, List.filter_cons] at *
      simp [h1, this]

/-- C9: a successful `addOrder` registers the order's id in the dependency
index under exactly the (maker address, maker token address) resource key —
dependency tracking is at maker resource granularity and taker-side
resources create no entries.  The hypothesis is the spec's index invariant
that existing buckets reference only registered orders. -/
theorem addOrder_registers_maker_key (reg : OrderRegistry) (o : Order)
    (reg' : OrderRegistry)
    (href : ∀ e ∈ reg.index, ∀ i ∈ e.2, (assocFind i reg.orders).isSome = true)
    (h : addOrder reg o = .ok reg') :
    keysMentioning reg'.index o.id = [(o.maker, o.makerToken)] := by
  cases hfind : assocFind o.id reg.orders with
  | some _ => simp [addOrder, hfind] at h
  | none =>
    simp only [addOrder, hfind] at h
    cases h
    have hno : ∀ e ∈ reg.index, o.id ∉ e.2 := by
      intro e he hmem
      have := href e he o.id hmem
      rw [hfind] at this
      simp at this
    exact keysMentioning_addDependency reg.index (o.maker, o.makerToken) o.id hno

theorem addOrder_registers_maker_key_witness :
    keysMentioning scRegistry.index scOrder.id = [(scOrder.maker, scOrder.makerToken)] :=
  addOrder_registers_maker_key emptyRegistry scOrder scRegistry (by decide) rfl

end OrderWatcher

namespace OrderWatcher

theorem find?_filterNe_append (l : List PendingChange) (p : PendingChange) :
    ((l.filter fun q => decide (q.orderId ≠ p.orderId)) ++ [p]).find?
      (fun q => decide (q.orderId = p.orderId)) = some p := by
  induction l with
  | nil => simp
  | cons q rest ih =>
    rw [List.filter_cons]
    by_cases h : q.orderId = p.orderId
    · have hpred : (decide (q.orderId ≠ p.orderId)) = false := by simp [h]
      rw [hpred]
      simp only [Bool.false_eq_true, if_false]
      exact ih
    · have hpred : (decide (q.orderId ≠ p.orderId)) = true := by simp [h]
      rw [hpred]
      simp only [if_true, List.cons_append]
      rw [List.find?_cons_of_neg _ (by simp [h])]
      exact ih

theorem find?_filter_comm (l : List PendingChange) (a b : Nat) (hab : a ≠ b) :
    (l.filter fun q => decide (q.orderId ≠ b)).find? (fun q => decide (q.orderId = a))
      = l.find? (fun q => decide (q.orderId = a)) := by
  induction l with
  | nil => rfl
  | cons q rest ih =>
    rw [List.filter_cons]
    by_cases hb : q.orderId = b
    · have ha : ¬ q.orderId = a := by
        rw [hb]
        exact fun hh => hab hh.symm
      have hpred : (decide (q.orderId ≠ b)) = false := by simp [hb]
      rw [hpred]
      simp only [Bool.false_eq_true, if_false]
      rw [List.find?_cons_of_neg _ (by simp [ha])]
      exact ih
    · have hpred : (decide (q.orderId ≠ b)) = true := by simp [hb]
      rw [hpred]
      simp only [if_true]
      by_cases ha : q.orderId = a
      · rw [List.find?_cons_of_pos _ (by simp [ha]), List.find?_cons_of_pos _ (by simp [ha])]
      · rw [List.find?_cons_of_neg _ (by simp [ha]), List.find?_cons_of_neg _ (by simp [ha])]
        exact ih

theorem find?_append_right_ne (l : List PendingChange) (p : PendingChange) (a : Nat)
    (h : p.orderId ≠ a) :
    (l ++ [p]).find? (fun q => decide (q.orderId = a))
      = l.find? (fun q => decide (q.orderId = a)) := by
  induction l with
  | nil => simp [h]
  | cons q rest ih =>
    by_cases hq : q.orderId = a <;> simp [hq, ih]

theorem stepEval_lookup_other (w : Watcher) (ps : ProviderState) (time bn : Nat)
    (pend : List PendingChange) (oid' oid : Nat) (h : oid' ≠ oid) :
    lookupPending (stepEval w ps time bn pend oid') oid = lookupPending pend oid := by
  cases hfind : assocFind oid' w.registry.orders with
  | none => simp only [stepEval, hfind]
  | some o =>
    simp only [stepEval, hfind]
    by_cases hs : assocFind oid' w.confirmedState
        = some (evaluate o time (getRelevantState ps o))
    · rw [if_pos hs]
    · rw [if_neg hs]
      unfold lookupPending upsertPending
      rw [find?_append_right_ne _ _ _ h]
      exact find?_filter_comm pend oid oid' (fun hh => h hh.symm)

theorem stepEval_lookup_self (w : Watcher) (ps : ProviderState) (time bn : Nat)
    (pend : List PendingChange) (oid : Nat) (o : Order)
    (ho : assocFind oid w.registry.orders = some o)
    (hne : assocFind oid w.confirmedState ≠ some (evaluate o time (getRelevantState ps o))) :
    lookupPending (stepEval w ps time bn pend oid) oid
      = some ⟨oid, bn, evaluate o time (getRelevantState ps o)⟩ := by
  simp only [stepEval, ho]
  rw [if_neg hne]
  exact find?_filterNe_append pend ⟨oid, bn, evaluate o time (getRelevantState ps o)⟩

theorem foldl_stepEval_keeps (w : Watcher) (ps : ProviderState) (time bn : Nat)
    (oid : Nat) (o : Order)
    (ho : assocFind oid w.registry.orders = some o)
    (hne : assocFind oid w.confirmedState ≠ some (evaluate o time (getRelevantState ps o)))
    (l : List Nat) :
    ∀ pend, lookupPending pend oid = some ⟨oid, bn, evaluate o time (getRelevantState ps o)⟩ →
      lookupPending (l.foldl (stepEval w ps time bn) pend) oid
        = some ⟨oid, bn, evaluate o time (getRelevantState ps o)⟩ := by
  induction l with
  | nil => exact fun pend h => h
  | cons a rest ih =>
    intro pend h
    rw [List.foldl_cons]
    apply ih
    by_cases ha : a = oid
    · subst ha
      exact stepEval_lookup_self w ps time bn pend a o ho hne
    · rw [stepEval_lookup_other w ps time bn pend a oid ha]
      exact h

theorem foldl_stepEval_sets (w : Watcher) (ps : ProviderState) (time bn : Nat)
    (oid : Nat) (o : Order)
    (ho : assocFind oid w.registry.orders = some o)
    (hne : assocFind oid w.confirmedState ≠ some (evaluate o time (getRelevantState ps o)))
    (l : List Nat) :
    ∀ pend, oid ∈ l →
      lookupPending (l.foldl (stepEval w ps time bn) pend) oid
        = some ⟨oid, bn, evaluate o time (getRelevantState ps o)⟩ := by
  induction l with
  | nil => intro pend h; cases h
  | cons a rest ih =>
    intro pend h
    rw [List.foldl_cons]
    rcases List.mem_cons.mp h with h1 | h2
    · subst h1
      exact foldl_stepEval_keeps w ps time bn oid o ho hne rest _
        (stepEval_lookup_self w ps time bn pend oid o ho hne)
    · exact ih (stepEval w ps time bn pend a) h2

theorem mem_stepEval (w : Watcher) (ps : ProviderState) (time bn : Nat)
    (pend : List PendingChange) (oid : Nat) (p : PendingChange)
    (h : p ∈ stepEval w ps time bn pend oid) :
    p ∈ pend ∨ p.observedAtBlock = bn := by
  cases hfind : assocFind oid w.registry.orders with
  | none =>
    simp only [stepEval, hfind] at h
    exact .inl h
  | some o =>
    simp only [stepEval, hfind] at h
    by_cases hs : assocFind oid w.confirmedState
        = some (evaluate o time (getRelevantState ps o))
    · rw [if_pos hs] at h
      exact .inl h
    · rw [if_neg hs] at h
      unfold upsertPending at h
      rcases List.mem_append.mp h with h1 | h2
      · exact .inl (List.mem_of_mem_filter h1)
      · right
        rw [List.mem_singleton.mp h2]

theorem mem_foldl_stepEval (w : Watcher) (ps : ProviderState) (time bn : Nat)
    (l : List Nat) :
    ∀ pend p, p ∈ l.foldl (stepEval w ps time bn) pend →
      p ∈ pend ∨ p.observedAtBlock = bn := by
  induction l with
  | nil => exact fun pend p h => .inl h
  | cons a rest ih =>
    intro pend p h
    rw [List.foldl_cons] at h
    rcases ih _ p h with h1 | h2
    · exact mem_stepEval w ps time bn pend a p h1
    · exact .inr h2

theorem mem_affectedIds (idx : DepIndex) (events : List LogEvent) (e : LogEvent) (oid : Nat)
    (he : e ∈ events) (h : oid ∈ lookupIdx idx e.key) : oid ∈ affectedIds idx events := by
  unfold affectedIds
  rw [List.mem_dedup]
  exact List.mem_flatten.mpr ⟨lookupIdx idx e.key, List.mem_map.mpr ⟨e, he, rfl⟩, h⟩

theorem processBlock_deliveries (w : Watcher) (bn : Nat) (events : List LogEvent)
    (ps : ProviderState) (time : Nat) (c : Nat) (hsub : w.subscription = some c) :
    (processBlock w bn events ps time).2.1
      = (promotedOf w.confirmationDepth bn (pendAfter w ps time bn events)).map
          (fun p => p.candidateState) := by
  unfold processBlock
  rw [hsub]

/-- C2: with confirmation depth 0, a watched order whose maker balance lies
below the (non-zero) remaining fillable amount when block `bn`'s events touch
its maker resource key is delivered as `Invalid` with reason
`InsufficientMakerBalance` when processing block `bn` itself, with no
further blocks required (the last confirmed state being different, per the
buffer's no-op delta suppression). -/
theorem balanceDrop_depth0_delivers
    (w : Watcher) (o : Order) (bn time : Nat) (events : List LogEvent)
    (ps : ProviderState) (e : LogEvent) (c : Nat)
    (hdepth : w.confirmationDepth = 0)
    (hsub : w.subscription = some c)
    (horder : assocFind o.id w.registry.orders = some o)
    (hidx : o.id ∈ lookupIdx w.registry.index (o.maker, o.makerToken))
    (hev : e ∈ events)
    (hkey : e.key = (o.maker, o.makerToken))
    (hexp : time < o.expiration)
    (hrem : (getRelevantState ps o).remainingFillableAmount ≠ 0)
    (hbal : (getRelevantState ps o).makerBalance < (getRelevantState ps o).remainingFillableAmount)
    (hchanged : assocFind o.id w.confirmedState
      ≠ some (OrderState.Invalid o.id .InsufficientMakerBalance)) :
    OrderState.Invalid o.id .InsufficientMakerBalance
      ∈ (processBlock w bn events ps time).2.1 := by
  have hst : evaluate o time (getRelevantState ps o)
      = .Invalid o.id .InsufficientMakerBalance := by
    unfold evaluate
    rw [if_neg (Nat.not_le.mpr hexp), if_neg hrem, if_pos hbal]
  have hne : assocFind o.id w.confirmedState
      ≠ some (evaluate o time (getRelevantState ps o)) := by
    rw [hst]
    exact hchanged
  have hmem : o.id ∈ affectedIds w.registry.index events :=
    mem_affectedIds _ events e o.id hev (by rw [hkey]; exact hidx)
  have hlp : lookupPending (pendAfter w ps time bn events) o.id
      = some ⟨o.id, bn, evaluate o time (getRelevantState ps o)⟩ :=
    foldl_stepEval_sets w ps time bn o.id o horder hne _ w.pending hmem
  have hpmem : (⟨o.id, bn, evaluate o time (getRelevantState ps o)⟩ : PendingChange)
      ∈ pendAfter w ps time bn events := List.mem_of_find?_eq_some hlp
  have hprom : (⟨o.id, bn, evaluate o time (getRelevantState ps o)⟩ : PendingChange)
      ∈ promotedOf w.confirmationDepth bn (pendAfter w ps time bn events) :=
    List.mem_filter.mpr ⟨hpmem, by simp [hdepth]⟩
  rw [processBlock_deliveries w bn events ps time c hsub]
  exact List.mem_map.mpr ⟨_, hprom, hst⟩

theorem balanceDrop_depth0_delivers_witness :
    OrderState.Invalid 1 InvalidReason.InsufficientMakerBalance
      ∈ (processBlock scWatcher 1 [scEvent] drainPs 0).2.1 :=
  balanceDrop_depth0_delivers scWatcher scOrder 1 0 [scEvent] drainPs scEvent 0
    rfl rfl (by decide) (by decide) (by decide) (by decide) (by decide) (by decide)
    (by decide) (by decide)

/-- C3: with confirmation depth 1, a state change first observed at block
`bn` (no pending change for the order exists beforehand) is never delivered
while processing block `bn` itself — delivery requires a further processed
block — and a reorg retracting block `bn` discards every pending change
observed at `bn` (or later), so a change whose observation block is
retracted before the next block arrives is never delivered. -/
theorem depth1_defers_and_reorg_discards
    (w : Watcher) (bn time : Nat) (events : List LogEvent) (ps : ProviderState) (oid : Nat)
    (hdepth : w.confirmationDepth = 1)
    (hfresh : lookupPending w.pending oid = none)
    (hcons : ∀ p ∈ w.pending, p.candidateState.ownId = p.orderId) :
    ((processBlock w bn events ps time).2.1.filter (fun st => decide (st.ownId = oid))) = []
    ∧ ((handleReorg w bn).pending.filter (fun p => decide (bn ≤ p.observedAtBlock))) = [] := by
  constructor
  · cases hsub : w.subscription with
    | none => simp [processBlock, hsub]
    | some c =>
      rw [processBlock_deliveries w bn events ps time c hsub]
      apply List.filter_eq_nil_iff.mpr
      intro st hst
      simp only [decide_eq_true_eq]
      obtain ⟨p, hp, rfl⟩ := List.mem_map.mp hst
      have hp1 := List.mem_filter.mp hp
      have hobs : p.observedAtBlock < bn := by
        have h2 := hp1.2
        rw [hdepth] at h2
        simp only [decide_eq_true_eq] at h2
        omega
      have hmem : p ∈ w.pending := by
        rcases mem_foldl_stepEval w ps time bn _ w.pending p hp1.1 with h1 | h2
        · exact h1
        · omega
      intro heq
      have hcons' := hcons p hmem
      have hne := List.find?_eq_none.mp hfresh p hmem
      simp only [decide_eq_true_eq] at hne
      exact hne (by rw [← hcons', heq])
  · apply List.filter_eq_nil_iff.mpr
    intro p hp
    simp only [decide_eq_true_eq]
    have h2 := List.of_mem_filter hp
    simp only [decide_eq_true_eq] at h2
    omega

theorem depth1_defers_and_reorg_discards_witness :
    ((processBlock depth1Watcher 1 [scEvent] drainPs 0).2.1.filter
        (fun st => decide (st.ownId = 1))) = []
    ∧ ((handleReorg depth1Watcher 1).pending.filter
        (fun p => decide (1 ≤ p.observedAtBlock))) = [] :=
  depth1_defers_and_reorg_discards depth1Watcher 1 0 [scEvent] drainPs 1
    rfl (by decide) (by decide)

/-- C7: a block whose events all touch resource keys with zero dependent
orders causes no evaluation work (no affected order ids) and no delivery,
and leaves the watcher state unchanged (given an empty confirmation
buffer, so no unrelated earlier change is promoted). -/
theorem irrelevantEvents_no_work
    (w : Watcher) (bn time : Nat) (events : List LogEvent) (ps : ProviderState)
    (hkeys : ∀ e ∈ events, lookupIdx w.registry.index e.key = [])
    (hpend : w.pending = []) :
    (processBlock w bn events ps time).2.2 = []
    ∧ (processBlock w bn events ps time).2.1 = []
    ∧ (processBlock w bn events ps time).1 = w := by
  have haff : affectedIds w.registry.index events = [] := by
    unfold affectedIds
    have hfl : (events.map (fun e => lookupIdx w.registry.index e.key)).flatten = [] := by
      rw [List.flatten_eq_nil_iff]
      intro l hl
      obtain ⟨e, he, rfl⟩ := List.mem_map.mp hl
      exact hkeys e he
    rw [hfl]
    rfl
  have hp1 : pendAfter w ps time bn events = [] := by
    unfold pendAfter
    rw [haff, hpend]
    rfl
  cases hsub : w.subscription with
  | none => simp [processBlock, hsub]
  | some c =>
    obtain ⟨reg, depth, sub, conf, pend⟩ := w
    simp only at hsub hpend
    subst hsub hpend
    refine ⟨?_, ?_, ?_⟩ <;>
      simp [processBlock, hp1, haff, promotedOf, remainingOf]

theorem irrelevantEvents_no_work_witness :
    (processBlock scWatcher 1 [strayEvent] scPs0 0).2.2 = []
    ∧ (processBlock scWatcher 1 [strayEvent] scPs0 0).2.1 = []
    ∧ (processBlock scWatcher 1 [strayEvent] scPs0 0).1 = scWatcher :=
  irrelevantEvents_no_work scWatcher 1 0 [strayEvent] scPs0 (by decide) rfl

end OrderWatcher

namespace OrderWatcher

/-- C6 counterexample: in the partial-fill scenario (remaining fillable
amount 5, fill of 2) the delivered state is `Valid` with remaining fillable
amount 3, but its `makerBalance` field is 3, not the pre-fill balance 5: the
test suite asserts `orderRelevantState.makerBalance` equals the pre-fill
balance minus the fill amount, so the delivered relevant state does not keep
the balance field unchanged, refuting the claim as stated. -/
theorem partialFill_unchanged_balance_false :
    (processBlock scWatcher 1 [scEvent] scPs1 0).2.1 =
      [OrderState.Valid 1
        { makerBalance := 3, makerAllowance := 5, filledAmount := 2
          cancelledAmount := 0, remainingFillableAmount := 3 }]
    ∧ scPs0.balance 10 20 = 5
    ∧ scPs0.allowance 10 20 = 5
    ∧ (processBlock scWatcher 1 [scEvent] scPs1 0).2.1 ≠
      [OrderState.Valid 1
        { makerBalance := scPs0.balance 10 20, makerAllowance := scPs0.allowance 10 20
          filledAmount := 2, cancelledAmount := 0, remainingFillableAmount := 3 }] := by
  decide

/-- C6 amended: for the watched order with remaining fillable amount 5, a
partial fill of 2 units yields a delivered `Valid` state whose relevant
state has remaining fillable amount 3, maker balance reduced by the fill
amount (from 5 to 3, as the test suite asserts) and the allowance field
unchanged from before the fill. -/
theorem partialFill_delivers_valid_remaining3 :
    (getRelevantState scPs0 scOrder).remainingFillableAmount = 5
    ∧ (processBlock scWatcher 1 [scEvent] scPs1 0).2.1 =
      [OrderState.Valid 1
        { makerBalance := scPs0.balance 10 20 - 2
          makerAllowance := scPs0.allowance 10 20
          filledAmount := 2, cancelledAmount := 0, remainingFillableAmount := 3 }] := by
  decide

end OrderWatcher

namespace NonceTracker

/-- C10 counterexample: with a cached entry that exists but is the empty
string (JavaScript-falsy) for the sender, and a send error whose message
contains "Transaction nonce is too low", the entry is not deleted — the
source guards deletion with the truthiness check
`this._nonceCache[address] && ...` — refuting the claimed
"deleted if and only if a cached value exists and the message contains"
at this input. -/
theorem nonce_cache_exists_not_deleted :
    (emptyValCache 0).isSome = true
    ∧ strIncludes "Error: Transaction nonce is too low." nonceTooLowMessage = true
    ∧ handleSendRawTransaction emptyValCache 0 3
        (some "Error: Transaction nonce is too low.") 0 = some "" := by
  decide

/-- C10 amended: a completed `eth_sendRawTransaction` without error caches,
for the sender, the submitted transaction's nonce plus one encoded as a
`0x`-prefixed hexadecimal string (the hex digits of nonce + 1, zero-padded
to an even digit count); on a send error the sender's entry is absent
afterwards if and only if either a JavaScript-truthy (non-empty) cached
value existed and the error message contains "Transaction nonce is too
low", or no cached value existed in the first place. -/
theorem nonce_cache_update_and_delete
    (cache : Cache) (sender txNonce : Nat) (msg : String) :
    (handleSendRawTransaction cache sender txNonce none) sender
        = some (nextPrefixedHexNonce txNonce)
    ∧ nextPrefixedHexNonce txNonce = "0x" ++ String.mk (evenHexChars (txNonce + 1))
    ∧ (evenHexChars (txNonce + 1) = Nat.toDigits 16 (txNonce + 1)
        ∨ evenHexChars (txNonce + 1) = '0' :: Nat.toDigits 16 (txNonce + 1))
    ∧ (evenHexChars (txNonce + 1)).length % 2 = 0
    ∧ ((handleSendRawTransaction cache sender txNonce (some msg)) sender = none
        ↔ (truthy (cache sender) = true ∧ strIncludes msg nonceTooLowMessage = true)
          ∨ cache sender = none) := by
  refine ⟨?_, rfl, ?_, ?_, ?_⟩
  · simp [handleSendRawTransaction, handleSuccessfulTransaction, updateEntry]
  · unfold evenHexChars
    by_cases h : (Nat.toDigits 16 (txNonce + 1)).length % 2 = 1
    · rw [if_pos h]
      right
      rfl
    · rw [if_neg h]
      left
      rfl
  · unfold evenHexChars
    by_cases h : (Nat.toDigits 16 (txNonce + 1)).length % 2 = 1
    · rw [if_pos h]
      simp only [List.length_cons]
      omega
    · rw [if_neg h]
      omega
  · unfold handleSendRawTransaction handleSendTransactionError
    by_cases ht : truthy (cache sender) = true
    · by_cases hi : strIncludes msg nonceTooLowMessage = true
      · simp [ht, hi, deleteEntry]
      · simp [ht, hi]
    · simp only [Bool.not_eq_true] at ht
      simp [ht]

end NonceTracker
